import Mathlib

/-!
# Verification of `ifshow.c`

A shallow embedding of the address-formatting and grouping logic of the
`ifshow` CLI tool, together with theorems checking the natural-language
specification against the code.

Output is modelled as a list of lines (every `printf` in the program ends
with `"\n"`, so concatenating per-call line lists coincides with splitting
the concatenated output on newlines).  NULL pointers are modelled by
`Option`, `exit` codes by a `Nat` paired with the output lines.
-/

namespace Ifshow

/-- Address families of interest: `AF_INET`, `AF_INET6`, and every other
family (`AF_PACKET`, ...), which the program treats uniformly. -/
inductive Family where
  | inet
  | inet6
  | other
deriving DecidableEq

/-- A socket address as the program reads it: an IPv4 address (the four
bytes of `sin_addr.s_addr` in network byte order, most significant first),
an IPv6 address (the 16 bytes of `sin6_addr.s6_addr`), or a socket address
of any other family, whose payload the program never inspects. -/
inductive Sockaddr where
  | inet (b0 b1 b2 b3 : Nat)
  | inet6 (s6_addr : List Nat)
  | other
deriving DecidableEq

/-- The `sa_family` field of a socket address. -/
def Sockaddr.sa_family : Sockaddr → Family
  | .inet _ _ _ _ => .inet
  | .inet6 _ => .inet6
  | .other => .other

/-- One node of the `getifaddrs` list: interface name, optional address
(`ifa_addr`), optional netmask (`ifa_netmask`); NULL pointers are `none`. -/
structure Ifaddr where
  ifa_name : String
  ifa_addr : Option Sockaddr
  ifa_netmask : Option Sockaddr
deriving DecidableEq

/-- `ntohl(nm4->sin_addr.s_addr)`: the 32-bit mask value with the first
byte of the dotted quad as the most significant byte. -/
def ntohl4 (b0 b1 b2 b3 : Nat) : Nat :=
  (b0 % 256) * 2 ^ 24 + (b1 % 256) * 2 ^ 16 + (b2 % 256) * 2 ^ 8 + b3 % 256

/-- `leading_ones m n` counts the consecutive set bits of `m` scanning from
bit `n - 1` down to bit `0`, stopping at the first clear bit.  The IPv4
loop of `count_prefix_length`
(`for (int i = 31; i >= 0; --i) { if ((m >> i) & 1U) count++; else break; }`)
is `leading_ones m 32`; one byte of the IPv6 loop is `leading_ones b 8`. -/
def leading_ones (m : Nat) : Nat → Nat
  | 0 => 0
  | n + 1 => if m.testBit n then leading_ones m n + 1 else 0

/-- The IPv6 arm of `count_prefix_length`: scan the bytes of `s6_addr` in
order, within each byte from bit 7 down to bit 0, counting set bits and
returning the count at the first clear bit (`else return count`).  A byte
is scanned completely, and the scan moves on to the next byte, exactly when
all its 8 low bits are set. -/
def cpl6 : List Nat → Nat
  | [] => 0
  | b :: rest => if leading_ones b 8 = 8 then 8 + cpl6 rest else leading_ones b 8

/-- `count_prefix_length` from `ifshow.c`: the CIDR prefix length of a
netmask sockaddr, or `-1` when the netmask is NULL or its family is neither
`AF_INET` nor `AF_INET6`. -/
def count_prefix_length : Option Sockaddr → Int
  | none => -1
  | some (.inet b0 b1 b2 b3) => Int.ofNat (leading_ones (ntohl4 b0 b1 b2 b3) 32)
  | some (.inet6 bytes) => Int.ofNat (cpl6 bytes)
  | some .other => -1

/-- Lower-case hexadecimal digit, as printed by `inet_ntop` for IPv6. -/
def hex_digit (n : Nat) : Char :=
  if n < 10 then Char.ofNat (48 + n) else Char.ofNat (87 + n)

/-- A 16-bit group of an IPv6 address in `%x` form (no leading zeros). -/
def hex16 (n : Nat) : String :=
  let m := n % 65536
  let d3 := m / 4096
  let d2 := m / 256 % 16
  let d1 := m / 16 % 16
  let d0 := m % 16
  if d3 ≠ 0 then String.mk [hex_digit d3, hex_digit d2, hex_digit d1, hex_digit d0]
  else if d2 ≠ 0 then String.mk [hex_digit d2, hex_digit d1, hex_digit d0]
  else if d1 ≠ 0 then String.mk [hex_digit d1, hex_digit d0]
  else String.mk [hex_digit d0]

/-- Dotted-decimal rendering of an IPv4 address, as `inet_ntop(AF_INET, ...)`
produces it. -/
def inet_ntop4 (b0 b1 b2 b3 : Nat) : String :=
  toString (b0 % 256) ++ "." ++ toString (b1 % 256) ++ "." ++
    toString (b2 % 256) ++ "." ++ toString (b3 % 256)

/-- Modelled from the spec: the external libc `inet_ntop(AF_INET6, ...)`
call (not part of this repository) produces the colon-separated hexadecimal
form of the 16 address bytes.  Zero-run `::` compression is omitted from
the model: no claim depends on the exact IPv6 text, only on the line shapes
built around it. -/
def inet_ntop6 (bytes : List Nat) : String :=
  String.intercalate ":"
    ((List.range 8).map (fun i =>
      hex16 ((bytes.getD (2 * i) 0 % 256) * 256 + bytes.getD (2 * i + 1) 0 % 256)))

/-- `NI_MAXHOST`, the size of the buffers `print_address_bullet` passes to
`addr_to_string`. -/
def NI_MAXHOST : Nat := 1025

/-- `addr_to_string` from `ifshow.c`: numeric string of an IPv4/IPv6 socket
address via `inet_ntop`; `none` (C: `-1`) on a NULL argument, a zero-sized
buffer, an unsupported family, or a buffer too small for the string and its
terminating NUL. -/
def addr_to_string (sa : Option Sockaddr) (buflen : Nat) : Option String :=
  match sa with
  | none => none
  | some s =>
    if buflen = 0 then none
    else
      match s with
      | .inet b0 b1 b2 b3 =>
        if (inet_ntop4 b0 b1 b2 b3).length + 1 ≤ buflen then some (inet_ntop4 b0 b1 b2 b3)
        else none
      | .inet6 bytes =>
        if (inet_ntop6 bytes).length + 1 ≤ buflen then some (inet_ntop6 bytes)
        else none
      | .other => none

/-- `print_interface_header` from `ifshow.c`: prints `"<name>:"` when the
name is non-empty, nothing otherwise. -/
def print_interface_header (ifname : String) : List String :=
  if ifname ≠ "" then [ifname ++ ":"] else []

/-- `print_address_bullet` from `ifshow.c`: no output on a NULL address or
a failed address conversion; otherwise one line, with the dotted mask in
parentheses when the address family is `AF_INET` and the netmask is present
and convertible and the prefix is computable, with `/<p>` alone when only
the prefix is computable, and the bare address otherwise. -/
def print_address_bullet (addr netmask : Option Sockaddr) : List String :=
  match addr with
  | none => []
  | some a =>
    match addr_to_string (some a) NI_MAXHOST with
    | none => []
    | some addr_str =>
      if a.sa_family = Family.inet ∧ netmask ≠ none ∧
          (addr_to_string netmask NI_MAXHOST).isSome ∧ 0 ≤ count_prefix_length netmask then
        [" - " ++ addr_str ++ "/" ++ toString (count_prefix_length netmask) ++ " (" ++
          (addr_to_string netmask NI_MAXHOST).getD "" ++ ")"]
      else if 0 ≤ count_prefix_length netmask then
        [" - " ++ addr_str ++ "/" ++ toString (count_prefix_length netmask)]
      else
        [" - " ++ addr_str]

/-- The entry filter both loops of `show_all_interfaces` apply before using
an entry: `ifa_addr` non-NULL and family `AF_INET` or `AF_INET6`. -/
def qualifies (ifa : Ifaddr) : Bool :=
  match ifa.ifa_addr with
  | none => false
  | some a => decide (a.sa_family = Family.inet ∨ a.sa_family = Family.inet6)

/-- `MAX_IFS` from `show_all_interfaces`: capacity of the `names` array. -/
def MAX_IFS : Nat := 256

/-- The name-collection loop of `show_all_interfaces`: walk the raw list,
and for each qualifying entry whose name is not yet recorded, append the
name — but only while fewer than `MAX_IFS` names are recorded. -/
def collect_names_go : List Ifaddr → List String → List String
  | [], names => names
  | ifa :: rest, names =>
    if qualifies ifa ∧ ifa.ifa_name ∉ names ∧ names.length < MAX_IFS then
      collect_names_go rest (names ++ [ifa.ifa_name])
    else
      collect_names_go rest names

/-- The recorded interface names, in first-seen order, capped at `MAX_IFS`. -/
def collect_names (l : List Ifaddr) : List String := collect_names_go l []

/-- The same first-seen name collection without the `MAX_IFS` cap; used to
state what the cap discards. -/
def first_seen_go : List Ifaddr → List String → List String
  | [], names => names
  | ifa :: rest, names =>
    if qualifies ifa ∧ ifa.ifa_name ∉ names then
      first_seen_go rest (names ++ [ifa.ifa_name])
    else
      first_seen_go rest names

/-- Uncapped first-seen order of names of qualifying entries. -/
def first_seen_names (l : List Ifaddr) : List String := first_seen_go l []

/-- The body of the printing loops: the bullet lines one raw entry
contributes to the group named `ifname` — a bullet when the entry has a
non-NULL address, the matching name, and family `AF_INET` or `AF_INET6`,
nothing otherwise (the loop `continue`s). -/
def entry_bullet (ifa : Ifaddr) (ifname : String) : List String :=
  match ifa.ifa_addr with
  | none => []
  | some a =>
    if ifa.ifa_name = ifname ∧ (a.sa_family = Family.inet ∨ a.sa_family = Family.inet6) then
      print_address_bullet ifa.ifa_addr ifa.ifa_netmask
    else []

/-- The inner printing loop shared by `show_all_interfaces` (per recorded
name) and `show_single_interface` (for the target name): walk the raw list
and print each entry's contribution to the group. -/
def render_group_entries : List Ifaddr → String → List String
  | [], _ => []
  | ifa :: rest, ifname => entry_bullet ifa ifname ++ render_group_entries rest ifname

/-- The outer printing loop of `show_all_interfaces`: for each recorded
name, the header, the bullet lines, and a blank separator line. -/
def show_all_groups (l : List Ifaddr) : List String → List String
  | [] => []
  | n :: rest =>
    print_interface_header n ++ render_group_entries l n ++ [""] ++ show_all_groups l rest

/-- `show_all_interfaces` from `ifshow.c`, with the `getifaddrs` snapshot
passed in (enumeration success assumed; failure exits before this logic). -/
def show_all_interfaces (l : List Ifaddr) : List String :=
  show_all_groups l (collect_names l)

/-- The message `show_single_interface` prints when no qualifying entry
with the target name was seen. -/
def not_found_msg (target : String) : String :=
  "Interface '" ++ target ++ "' not found or has no IP."

/-- `show_single_interface` from `ifshow.c`: the header is printed first,
unconditionally (for a non-empty name); then the bullet lines; the `found`
flag is set exactly when some entry has a non-NULL address, the target
name, and family `AF_INET` or `AF_INET6`, and when it stays clear the
not-found message is printed last. -/
def show_single_interface (target : String) (l : List Ifaddr) : List String :=
  print_interface_header target ++ render_group_entries l target ++
    (if l.any (fun ifa => qualifies ifa && decide (ifa.ifa_name = target)) then []
     else [not_found_msg target])

/-- The lines printed by `help()`. -/
def help_lines : List String :=
  ["Usage:",
   "  ifshow -a                     # Show all interfaces",
   "  ifshow -i <interface_name>    # Show specific interface",
   "",
   "Examples:",
   "  ifshow -a",
   "  ifshow -i eth0",
   "",
   "Notes:",
   "  Addresses include netmask as address/prefix.",
   "  IPv4 also shows dotted mask in parentheses.",
   ""]

/-- `EXIT_SUCCESS`. -/
def EXIT_SUCCESS : Nat := 0

/-- `EXIT_FAILURE`. -/
def EXIT_FAILURE : Nat := 1

/-- `main` from `ifshow.c`, with `argv` as a list (so `argc = argv.length`,
`argv[0]` the program name) and the `getifaddrs` snapshot passed in.
Returns the printed lines and the exit code. -/
def main_run (argv : List String) (l : List Ifaddr) : List String × Nat :=
  if argv.length < 2 ∨ argv.length > 3 then
    (["", "Unrecognized number of arguments. Please refer to the following:", ""] ++
      help_lines, EXIT_FAILURE)
  else if argv.getD 1 "" = "-a" then
    if argv.length ≠ 2 then
      (["Error: '-a' must be used alone.", ""] ++ help_lines, EXIT_FAILURE)
    else
      (show_all_interfaces l, EXIT_SUCCESS)
  else if argv.getD 1 "" = "-i" then
    if argv.length ≠ 3 then
      (["Error: '-i' requires an interface name.", ""] ++ help_lines, EXIT_FAILURE)
    else
      (show_single_interface (argv.getD 2 "") l, EXIT_SUCCESS)
  else
    (["Unrecognized argument: '" ++ argv.getD 1 "" ++ "'. Please refer to the following:", ""] ++
      help_lines, EXIT_FAILURE)

/-- Bit `i` of a byte list read as a 128-bit mask: most significant byte
first and, within each byte, most significant bit first — the order in
which the IPv6 loop of `count_prefix_length` visits the bits. -/
def mask_bit (bytes : List Nat) (i : Nat) : Bool :=
  (bytes.getD (i / 8) 0).testBit (7 - i % 8)

/-- The spec's grouping example: raw entries named `eth0`, `lo`, `eth0`,
each carrying one IPv4 address with a netmask. -/
def example_entries : List Ifaddr :=
  [⟨"eth0", some (Sockaddr.inet 192 0 2 1), some (Sockaddr.inet 255 255 255 0)⟩,
   ⟨"lo", some (Sockaddr.inet 127 0 0 1), some (Sockaddr.inet 255 0 0 0)⟩,
   ⟨"eth0", some (Sockaddr.inet 192 0 2 3), some (Sockaddr.inet 255 255 255 0)⟩]

/-! Helper lemmas about the bit-scanning loops. -/

theorem leading_ones_le (m : Nat) : ∀ n, leading_ones m n ≤ n := by
  intro n
  induction n with
  | zero => simp [leading_ones]
  | succ k ih =>
    unfold leading_ones
    split
    · omega
    · omega

theorem leading_ones_succ (m n : Nat) :
    leading_ones m (n + 1) = if m.testBit n then leading_ones m n + 1 else 0 := rfl

theorem leading_ones_testBit (m : Nat) :
    ∀ n j, j < leading_ones m n → m.testBit (n - 1 - j) = true := by
  intro n
  induction n with
  | zero => intro j h; simp [leading_ones] at h
  | succ k ih =>
    intro j h
    by_cases hb : m.testBit k = true
    · have hval : leading_ones m (k + 1) = leading_ones m k + 1 := by
        rw [leading_ones_succ, if_pos hb]
      rw [hval] at h
      cases j with
      | zero =>
        have harith : k + 1 - 1 - 0 = k := by omega
        rw [harith]
        exact hb
      | succ j' =>
        have hj : j' < leading_ones m k := by omega
        have := ih j' hj
        have harith : k + 1 - 1 - (j' + 1) = k - 1 - j' := by omega
        rw [harith]
        exact this
    · have hval : leading_ones m (k + 1) = 0 := by
        rw [leading_ones_succ, if_neg hb]
      rw [hval] at h
      omega

theorem leading_ones_stop (m : Nat) :
    ∀ n, leading_ones m n < n → m.testBit (n - 1 - leading_ones m n) = false := by
  intro n
  induction n with
  | zero => intro h; omega
  | succ k ih =>
    intro h
    by_cases hb : m.testBit k = true
    · have hval : leading_ones m (k + 1) = leading_ones m k + 1 := by
        rw [leading_ones_succ, if_pos hb]
      rw [hval] at h ⊢
      have hlt : leading_ones m k < k := by omega
      have := ih hlt
      have harith : k + 1 - 1 - (leading_ones m k + 1) = k - 1 - leading_ones m k := by omega
      rw [harith]
      exact this
    · have hval : leading_ones m (k + 1) = 0 := by
        rw [leading_ones_succ, if_neg hb]
      rw [hval]
      have harith : k + 1 - 1 - 0 = k := by omega
      rw [harith]
      simpa using hb

theorem leading_ones_eq_eight (b : Nat) (h : leading_ones b 8 = 8) :
    ∀ bit, bit < 8 → b.testBit bit = true := by
  intro bit hbit
  have := leading_ones_testBit b 8 (7 - bit) (by omega)
  have harith : 8 - 1 - (7 - bit) = bit := by omega
  rwa [harith] at this

theorem mask_bit_cons_lt (b : Nat) (bytes : List Nat) (i : Nat) (h : i < 8) :
    mask_bit (b :: bytes) i = b.testBit (7 - i) := by
  unfold mask_bit
  rw [Nat.div_eq_of_lt h, Nat.mod_eq_of_lt h]
  rfl

theorem mask_bit_cons_ge (b : Nat) (bytes : List Nat) (i : Nat) :
    mask_bit (b :: bytes) (8 + i) = mask_bit bytes i := by
  unfold mask_bit
  have hdiv : (8 + i) / 8 = i / 8 + 1 := by
    rw [Nat.add_comm]
    exact Nat.add_div_right i (by norm_num)
  have hmod : (8 + i) % 8 = i % 8 := by
    rw [Nat.add_comm]
    exact Nat.add_mod_right i 8
  rw [hdiv, hmod]
  rfl

theorem cpl6_le (bytes : List Nat) : cpl6 bytes ≤ 8 * bytes.length := by
  induction bytes with
  | nil => simp [cpl6]
  | cons b rest ih =>
    unfold cpl6
    have := leading_ones_le b 8
    split
    · simp only [List.length_cons]
      omega
    · simp only [List.length_cons]
      omega

theorem cpl6_ones (bytes : List Nat) :
    ∀ i, i < cpl6 bytes → mask_bit bytes i = true := by
  induction bytes with
  | nil => intro i h; simp [cpl6] at h
  | cons b rest ih =>
    intro i h
    unfold cpl6 at h
    split at h
    · next hfull =>
      by_cases hi : i < 8
      · rw [mask_bit_cons_lt b rest i hi]
        exact leading_ones_eq_eight b hfull (7 - i) (by omega)
      · have hrep : i = 8 + (i - 8) := by omega
        rw [hrep, mask_bit_cons_ge]
        exact ih (i - 8) (by omega)
    · next hfull =>
      have hlt8 : leading_ones b 8 < 8 := by
        have := leading_ones_le b 8
        omega
      have hi : i < 8 := by omega
      rw [mask_bit_cons_lt b rest i hi]
      have := leading_ones_testBit b 8 i h
      have harith : 8 - 1 - i = 7 - i := by omega
      rwa [harith] at this

theorem cpl6_stop (bytes : List Nat) (h : cpl6 bytes < 8 * bytes.length) :
    mask_bit bytes (cpl6 bytes) = false := by
  induction bytes with
  | nil => simp [cpl6] at h
  | cons b rest ih =>
    unfold cpl6 at h ⊢
    split
    · next hfull =>
      split at h
      · rw [mask_bit_cons_ge]
        apply ih
        simp only [List.length_cons] at h
        omega
      · exact absurd hfull ‹¬leading_ones b 8 = 8›
    · next hfull =>
      have hlt8 : leading_ones b 8 < 8 := by
        have := leading_ones_le b 8
        omega
      rw [mask_bit_cons_lt b rest _ hlt8]
      have := leading_ones_stop b 8 hlt8
      have harith : 8 - 1 - leading_ones b 8 = 7 - leading_ones b 8 := by omega
      rwa [harith] at this

/-! Helper lemmas about grouping and rendering. -/

theorem qualifies_addr_none (ifa : Ifaddr) (h : ifa.ifa_addr = none) :
    qualifies ifa = false := by
  unfold qualifies
  rw [h]

theorem qualifies_addr_some (ifa : Ifaddr) (a : Sockaddr) (h : ifa.ifa_addr = some a) :
    qualifies ifa = decide (a.sa_family = Family.inet ∨ a.sa_family = Family.inet6) := by
  unfold qualifies
  rw [h]

theorem entry_bullet_addr_none (ifa : Ifaddr) (n : String) (h : ifa.ifa_addr = none) :
    entry_bullet ifa n = [] := by
  unfold entry_bullet
  rw [h]

theorem entry_bullet_addr_some (ifa : Ifaddr) (a : Sockaddr) (n : String)
    (h : ifa.ifa_addr = some a) :
    entry_bullet ifa n =
      (if ifa.ifa_name = n ∧ (a.sa_family = Family.inet ∨ a.sa_family = Family.inet6) then
        print_address_bullet ifa.ifa_addr ifa.ifa_netmask
      else []) := by
  unfold entry_bullet
  rw [h]

theorem render_group_entries_cons (ifa : Ifaddr) (rest : List Ifaddr) (n : String) :
    render_group_entries (ifa :: rest) n =
      entry_bullet ifa n ++ render_group_entries rest n := rfl

theorem render_group_entries_append (l1 l2 : List Ifaddr) (n : String) :
    render_group_entries (l1 ++ l2) n =
      render_group_entries l1 n ++ render_group_entries l2 n := by
  induction l1 with
  | nil => simp [render_group_entries]
  | cons ifa rest ih =>
    rw [List.cons_append, render_group_entries_cons, render_group_entries_cons, ih,
      List.append_assoc]

theorem entry_bullet_of_not_qualifies (ifa : Ifaddr) (n : String)
    (h : qualifies ifa = false) :
    entry_bullet ifa n = [] := by
  cases haddr : ifa.ifa_addr with
  | none => exact entry_bullet_addr_none ifa n haddr
  | some a =>
    rw [qualifies_addr_some ifa a haddr] at h
    simp only [decide_eq_false_iff_not] at h
    rw [entry_bullet_addr_some ifa a n haddr, if_neg (fun hc => h hc.2)]

theorem collect_names_go_sat (l : List Ifaddr) :
    ∀ names : List String, MAX_IFS ≤ names.length → collect_names_go l names = names := by
  induction l with
  | nil => intro names _; rfl
  | cons ifa rest ih =>
    intro names hlen
    unfold collect_names_go
    rw [if_neg (fun hc => absurd hc.2.2 (by omega))]
    exact ih names hlen

theorem first_seen_go_prefix (l : List Ifaddr) :
    ∀ names : List String, ∃ t, first_seen_go l names = names ++ t := by
  induction l with
  | nil => intro names; exact ⟨[], by simp [first_seen_go]⟩
  | cons ifa rest ih =>
    intro names
    unfold first_seen_go
    split
    · obtain ⟨t, ht⟩ := ih (names ++ [ifa.ifa_name])
      exact ⟨ifa.ifa_name :: t, by rw [ht, List.append_assoc]; rfl⟩
    · exact ih names

theorem collect_names_go_eq_take (l : List Ifaddr) :
    ∀ names : List String, names.length ≤ MAX_IFS →
      collect_names_go l names = (first_seen_go l names).take MAX_IFS := by
  induction l with
  | nil =>
    intro names hlen
    exact (List.take_of_length_le hlen).symm
  | cons ifa rest ih =>
    intro names hlen
    unfold collect_names_go first_seen_go
    by_cases hq : qualifies ifa ∧ ifa.ifa_name ∉ names
    · rw [if_pos hq]
      by_cases hcap : names.length < MAX_IFS
      · rw [if_pos ⟨hq.1, hq.2, hcap⟩]
        exact ih (names ++ [ifa.ifa_name]) (by simp; omega)
      · rw [if_neg (fun hc => hcap hc.2.2)]
        have hfull : names.length = MAX_IFS := by omega
        rw [collect_names_go_sat rest names (by omega)]
        obtain ⟨t, ht⟩ := first_seen_go_prefix rest (names ++ [ifa.ifa_name])
        rw [ht, List.append_assoc, List.take_append_eq_append_take, hfull,
          Nat.sub_self, List.take_zero, List.append_nil]
        exact (List.take_of_length_le (by omega)).symm
    · rw [if_neg hq, if_neg (fun hc => hq ⟨hc.1, hc.2.1⟩)]
      exact ih names hlen

theorem collect_names_go_nodup (l : List Ifaddr) :
    ∀ names : List String, names.Nodup → (collect_names_go l names).Nodup := by
  induction l with
  | nil => intro names h; exact h
  | cons ifa rest ih =>
    intro names h
    unfold collect_names_go
    split
    · next hq =>
      apply ih
      rw [List.nodup_append_comm]
      simpa [List.nodup_cons] using ⟨hq.2.1, h⟩
    · exact ih names h

theorem collect_names_go_mem (l : List Ifaddr) :
    ∀ (names : List String) (n : String), n ∈ collect_names_go l names →
      n ∈ names ∨ ∃ ifa, ifa ∈ l ∧ qualifies ifa = true ∧ ifa.ifa_name = n := by
  induction l with
  | nil => intro names n h; exact Or.inl h
  | cons ifa rest ih =>
    intro names n h
    unfold collect_names_go at h
    split at h
    · next hq =>
      rcases ih (names ++ [ifa.ifa_name]) n h with hmem | ⟨e, he, hqe, hne⟩
      · rcases List.mem_append.mp hmem with h1 | h1
        · exact Or.inl h1
        · refine Or.inr ⟨ifa, List.mem_cons_self ifa rest, hq.1, ?_⟩
          exact (List.mem_singleton.mp h1).symm
      · exact Or.inr ⟨e, List.mem_cons_of_mem ifa he, hqe, hne⟩
    · rcases ih names n h with h1 | ⟨e, he, hqe, hne⟩
      · exact Or.inl h1
      · exact Or.inr ⟨e, List.mem_cons_of_mem ifa he, hqe, hne⟩

theorem render_group_entries_filter (l : List Ifaddr) (n : String) :
    render_group_entries (l.filter qualifies) n = render_group_entries l n := by
  induction l with
  | nil => rfl
  | cons ifa rest ih =>
    by_cases hq : qualifies ifa = true
    · rw [List.filter_cons_of_pos hq, render_group_entries_cons, render_group_entries_cons, ih]
    · have hq' : qualifies ifa = false := by simpa using hq
      rw [List.filter_cons_of_neg (by simpa using hq), render_group_entries_cons,
        entry_bullet_of_not_qualifies ifa n hq', List.nil_append, ih]

theorem render_group_entries_of_none (l : List Ifaddr) (n : String)
    (h : ∀ ifa ∈ l, ¬(qualifies ifa = true ∧ ifa.ifa_name = n)) :
    render_group_entries l n = [] := by
  induction l with
  | nil => rfl
  | cons ifa rest ih =>
    rw [render_group_entries_cons, ih (fun e he => h e (List.mem_cons_of_mem ifa he)),
      List.append_nil]
    cases haddr : ifa.ifa_addr with
    | none => exact entry_bullet_addr_none ifa n haddr
    | some a =>
      rw [entry_bullet_addr_some ifa a n haddr, if_neg]
      intro hc
      refine h ifa (List.mem_cons_self ifa rest) ⟨?_, hc.1⟩
      rw [qualifies_addr_some ifa a haddr]
      simpa using hc.2

theorem string_shape_append (x y : String) (h : ∃ u, x = " - " ++ u) :
    ∃ u, x ++ y = " - " ++ u := by
  obtain ⟨u, hu⟩ := h
  exact ⟨u ++ y, by rw [hu, String.append_assoc]⟩

theorem print_address_bullet_shape (addr netmask : Option Sockaddr) (line : String)
    (h : line ∈ print_address_bullet addr netmask) : ∃ t, line = " - " ++ t := by
  unfold print_address_bullet at h
  split at h
  · simp at h
  · split at h
    · simp at h
    · split at h
      · rw [List.mem_singleton] at h
        rw [h]
        exact string_shape_append _ _ (string_shape_append _ _ (string_shape_append _ _
          (string_shape_append _ _ (string_shape_append _ _ ⟨_, rfl⟩))))
      · split at h
        · rw [List.mem_singleton] at h
          rw [h]
          exact string_shape_append _ _ (string_shape_append _ _ ⟨_, rfl⟩)
        · rw [List.mem_singleton] at h
          rw [h]
          exact ⟨_, rfl⟩

theorem bullet_line_ne_empty (addr netmask : Option Sockaddr) (line : String)
    (h : line ∈ print_address_bullet addr netmask) : line ≠ "" := by
  obtain ⟨t, ht⟩ := print_address_bullet_shape addr netmask line h
  intro hc
  rw [ht] at hc
  have hlen := congrArg String.length hc
  rw [String.length_append] at hlen
  have h3 : String.length " - " = 3 := rfl
  have h0 : String.length "" = 0 := rfl
  omega

theorem print_address_bullet_conv_some (a : Sockaddr) (netmask : Option Sockaddr)
    (addr_str : String) (hs : addr_to_string (some a) NI_MAXHOST = some addr_str) :
    print_address_bullet (some a) netmask =
      (if a.sa_family = Family.inet ∧ netmask ≠ none ∧
          (addr_to_string netmask NI_MAXHOST).isSome ∧ 0 ≤ count_prefix_length netmask then
        [" - " ++ addr_str ++ "/" ++ toString (count_prefix_length netmask) ++ " (" ++
          (addr_to_string netmask NI_MAXHOST).getD "" ++ ")"]
      else if 0 ≤ count_prefix_length netmask then
        [" - " ++ addr_str ++ "/" ++ toString (count_prefix_length netmask)]
      else
        [" - " ++ addr_str]) := by
  simp only [print_address_bullet]
  rw [hs]

theorem print_address_bullet_conv_none (addr netmask : Option Sockaddr)
    (hs : addr_to_string addr NI_MAXHOST = none) :
    print_address_bullet addr netmask = [] := by
  cases addr with
  | none => rfl
  | some a =>
    simp only [print_address_bullet]
    rw [hs]

theorem render_line_ne_empty (l : List Ifaddr) (n : String) (line : String)
    (h : line ∈ render_group_entries l n) : line ≠ "" := by
  induction l with
  | nil => simp [render_group_entries] at h
  | cons ifa rest ih =>
    rw [render_group_entries_cons] at h
    rcases List.mem_append.mp h with h1 | h1
    · cases haddr : ifa.ifa_addr with
      | none =>
        rw [entry_bullet_addr_none ifa n haddr] at h1
        simp at h1
      | some a =>
        rw [entry_bullet_addr_some ifa a n haddr] at h1
        split at h1
        · exact bullet_line_ne_empty _ _ _ h1
        · simp at h1
    · exact ih h1

theorem header_line_ne_empty (name line : String) (h : line ∈ print_interface_header name) :
    line ≠ "" := by
  unfold print_interface_header at h
  split at h
  · rw [List.mem_singleton] at h
    subst h
    intro hc
    have hlen := congrArg String.length hc
    rw [String.length_append] at hlen
    have h1 : String.length ":" = 1 := rfl
    have h0 : String.length "" = 0 := rfl
    omega
  · simp at h

/-! ## The claims -/

/-- C1: for every IPv4 netmask, `count_prefix_length` returns the count of
leading one-bits scanned from the most-significant bit (bit 31), stopping
at the first zero bit and ignoring any later one-bits without validation;
`255.255.255.0` yields 24, `255.255.255.255` yields 32, `0.0.0.0` yields 0,
and the malformed mask `255.0.255.0` yields 8. -/
theorem C1_ipv4_prefix_count (b0 b1 b2 b3 : Nat) :
    count_prefix_length (some (Sockaddr.inet b0 b1 b2 b3)) =
      Int.ofNat (leading_ones (ntohl4 b0 b1 b2 b3) 32) ∧
    leading_ones (ntohl4 b0 b1 b2 b3) 32 ≤ 32 ∧
    (∀ j, j < leading_ones (ntohl4 b0 b1 b2 b3) 32 →
      (ntohl4 b0 b1 b2 b3).testBit (31 - j) = true) ∧
    (leading_ones (ntohl4 b0 b1 b2 b3) 32 < 32 →
      (ntohl4 b0 b1 b2 b3).testBit (31 - leading_ones (ntohl4 b0 b1 b2 b3) 32) = false) ∧
    count_prefix_length (some (Sockaddr.inet 255 255 255 0)) = 24 ∧
    count_prefix_length (some (Sockaddr.inet 255 255 255 255)) = 32 ∧
    count_prefix_length (some (Sockaddr.inet 0 0 0 0)) = 0 ∧
    count_prefix_length (some (Sockaddr.inet 255 0 255 0)) = 8 := by
  refine ⟨rfl, leading_ones_le _ 32, ?_, ?_, by decide, by decide, by decide, by decide⟩
  · intro j hj
    have hbit := leading_ones_testBit (ntohl4 b0 b1 b2 b3) 32 j hj
    have harith : 32 - 1 - j = 31 - j := by omega
    rwa [harith] at hbit
  · intro hlt
    have hbit := leading_ones_stop (ntohl4 b0 b1 b2 b3) 32 hlt
    have harith : 32 - 1 - leading_ones (ntohl4 b0 b1 b2 b3) 32 =
        31 - leading_ones (ntohl4 b0 b1 b2 b3) 32 := by omega
    rwa [harith] at hbit

/-- Witness for C1 at the malformed mask `255.0.255.0`: bits 31..24 are
ones, bit 23 (the 9th from the top) is the first zero, and the scan stops
there even though later one-bits exist. -/
theorem C1_ipv4_prefix_count_witness :
    (ntohl4 255 0 255 0).testBit (31 - 3) = true ∧
    (ntohl4 255 0 255 0).testBit (31 - leading_ones (ntohl4 255 0 255 0) 32) = false := by
  have h := C1_ipv4_prefix_count 255 0 255 0
  exact ⟨h.2.2.1 3 (by decide), h.2.2.2.1 (by decide)⟩

/-- C5: for every 16-byte IPv6 netmask, `count_prefix_length` scans the
mask bytes most-significant byte first, within each byte most-significant
bit first, counting one-bits up to the first zero bit over the full 128
bits; `ffff:ffff:ffff:ffff::` yields 64. -/
theorem C5_ipv6_prefix_count (bytes : List Nat) (hlen : bytes.length = 16) :
    count_prefix_length (some (Sockaddr.inet6 bytes)) = Int.ofNat (cpl6 bytes) ∧
    cpl6 bytes ≤ 128 ∧
    (∀ i, i < cpl6 bytes → mask_bit bytes i = true) ∧
    (cpl6 bytes < 128 → mask_bit bytes (cpl6 bytes) = false) ∧
    count_prefix_length (some (Sockaddr.inet6
      [255, 255, 255, 255, 255, 255, 255, 255, 0, 0, 0, 0, 0, 0, 0, 0])) = 64 := by
  refine ⟨rfl, ?_, cpl6_ones bytes, ?_, by decide⟩
  · have h := cpl6_le bytes
    rw [hlen] at h
    omega
  · intro h
    exact cpl6_stop bytes (by rw [hlen]; omega)

/-- Witness for C5 at the mask `ffff:ffff:ffff:ffff::`: bit 63 (the last of
the leading ones) is set and bit 64 (where the count stops) is clear. -/
theorem C5_ipv6_prefix_count_witness :
    mask_bit [255, 255, 255, 255, 255, 255, 255, 255, 0, 0, 0, 0, 0, 0, 0, 0] 63 = true ∧
    mask_bit [255, 255, 255, 255, 255, 255, 255, 255, 0, 0, 0, 0, 0, 0, 0, 0]
      (cpl6 [255, 255, 255, 255, 255, 255, 255, 255, 0, 0, 0, 0, 0, 0, 0, 0]) = false := by
  have h := C5_ipv6_prefix_count
    [255, 255, 255, 255, 255, 255, 255, 255, 0, 0, 0, 0, 0, 0, 0, 0] (by decide)
  exact ⟨h.2.2.1 63 (by decide), h.2.2.2.1 (by decide)⟩

/-- C6: an absent (NULL) netmask, or one whose family is neither IPv4 nor
IPv6, makes `count_prefix_length` return the distinct unmeasurable result
`-1` (never 0 or 32), and the corresponding address is then rendered as the
address-only bullet with no slash, prefix, or mask. -/
theorem C6_unmeasurable_result (netmask : Option Sockaddr)
    (h : netmask = none ∨ ∃ nm, netmask = some nm ∧ nm.sa_family = Family.other) :
    count_prefix_length netmask = -1 ∧
    count_prefix_length netmask ≠ 0 ∧
    count_prefix_length netmask ≠ 32 ∧
    (∀ (a : Sockaddr) (addr_str : String),
      addr_to_string (some a) NI_MAXHOST = some addr_str →
      print_address_bullet (some a) netmask = [" - " ++ addr_str]) := by
  have hcnt : count_prefix_length netmask = -1 := by
    rcases h with h | ⟨nm, hnm, hfam⟩
    · rw [h]
      rfl
    · cases nm with
      | inet b0 b1 b2 b3 => simp [Sockaddr.sa_family] at hfam
      | inet6 bs => simp [Sockaddr.sa_family] at hfam
      | other =>
        rw [hnm]
        rfl
  have hneg : ¬(0 ≤ count_prefix_length netmask) := by
    rw [hcnt]
    decide
  refine ⟨hcnt, by rw [hcnt]; decide, by rw [hcnt]; decide, ?_⟩
  intro a addr_str hs
  rw [print_address_bullet_conv_some a netmask addr_str hs,
    if_neg (fun hc => hneg hc.2.2.2), if_neg hneg]

/-- Witness for C6 at a NULL netmask and the address `192.0.2.10`. -/
theorem C6_unmeasurable_result_witness :
    print_address_bullet (some (Sockaddr.inet 192 0 2 10)) none = [" - " ++ "192.0.2.10"] :=
  (C6_unmeasurable_result none (Or.inl rfl)).2.2.2
    (Sockaddr.inet 192 0 2 10) "192.0.2.10" (by decide)

/-- C7: when address-to-string conversion fails, only that address line is
skipped: the bullet printer produces no output for the entry, and the
surrounding printing loop's output is exactly what the list without that
entry produces — the remaining entries are processed unchanged. -/
theorem C7_conversion_failure_local (sa netmask : Option Sockaddr)
    (h : addr_to_string sa NI_MAXHOST = none) :
    print_address_bullet sa netmask = [] ∧
    (∀ (ifa : Ifaddr) (pre post : List Ifaddr) (ifname : String),
      ifa.ifa_addr = sa → ifa.ifa_netmask = netmask →
      render_group_entries (pre ++ ifa :: post) ifname =
        render_group_entries pre ifname ++ render_group_entries post ifname) := by
  have hbul : print_address_bullet sa netmask = [] :=
    print_address_bullet_conv_none sa netmask h
  refine ⟨hbul, ?_⟩
  intro ifa pre post ifname haddr hmask
  rw [render_group_entries_append, render_group_entries_cons]
  have hb : entry_bullet ifa ifname = [] := by
    cases hsa : ifa.ifa_addr with
    | none => exact entry_bullet_addr_none ifa ifname hsa
    | some a =>
      rw [entry_bullet_addr_some ifa a ifname hsa]
      split
      · rw [haddr, hmask]
        exact hbul
      · rfl
  rw [hb, List.nil_append]

/-- Witness for C7: an `AF_PACKET`-style entry between two IPv4 entries of
`eth0` is skipped and the rest of the group is rendered unchanged. -/
theorem C7_conversion_failure_local_witness :
    print_address_bullet (some Sockaddr.other) none = [] ∧
    render_group_entries
        ([⟨"eth0", some (Sockaddr.inet 192 0 2 1), none⟩] ++
          ⟨"eth0", some Sockaddr.other, none⟩ ::
            [⟨"eth0", some (Sockaddr.inet 192 0 2 2), none⟩]) "eth0" =
      render_group_entries [⟨"eth0", some (Sockaddr.inet 192 0 2 1), none⟩] "eth0" ++
        render_group_entries [⟨"eth0", some (Sockaddr.inet 192 0 2 2), none⟩] "eth0" := by
  have h := C7_conversion_failure_local (some Sockaddr.other) none (by decide)
  exact ⟨h.1, h.2 ⟨"eth0", some Sockaddr.other, none⟩ _ _ "eth0" rfl rfl⟩

/-- Counterexample to C2 as stated: on the name `eth0` with an empty raw
list (zero qualifying entries), single-interface mode does print the group
header line `eth0:` before the not-found message — the output is not
exactly the not-found message. -/
theorem C2_counterexample_header_printed :
    show_single_interface "eth0" [] =
      ["eth0:", "Interface 'eth0' not found or has no IP."] ∧
    show_single_interface "eth0" [] ≠ ["Interface 'eth0' not found or has no IP."] ∧
    "eth0:" ∈ show_single_interface "eth0" [] := by
  refine ⟨by decide, by decide, by decide⟩

/-- C2 (amended): for every interface name with zero qualifying entries,
single-interface mode prints no address bullets and produces the not-found
message — preceded by the group header line, which is printed
unconditionally whenever the name is non-empty. -/
theorem C2_not_found_message (target : String) (l : List Ifaddr)
    (h : ∀ ifa ∈ l, ¬(qualifies ifa = true ∧ ifa.ifa_name = target)) :
    show_single_interface target l =
      print_interface_header target ++ [not_found_msg target] := by
  have hany : l.any (fun ifa => qualifies ifa && decide (ifa.ifa_name = target)) = false := by
    by_contra hc
    rw [Bool.not_eq_false, List.any_eq_true] at hc
    obtain ⟨ifa, hifa, hp⟩ := hc
    rw [Bool.and_eq_true, decide_eq_true_eq] at hp
    exact h ifa hifa hp
  unfold show_single_interface
  rw [render_group_entries_of_none l target h, hany]
  simp

/-- Witness for C2 (amended): looking up `wlan0` in a list that only holds
an `eth0` entry yields the header plus the not-found message. -/
theorem C2_not_found_message_witness :
    show_single_interface "wlan0" [⟨"eth0", some (Sockaddr.inet 10 0 0 1), none⟩] =
      print_interface_header "wlan0" ++ [not_found_msg "wlan0"] :=
  C2_not_found_message "wlan0" [⟨"eth0", some (Sockaddr.inet 10 0 0 1), none⟩] (by decide)

/-- C3: every rendered address line takes exactly one of three mutually
exclusive, exhaustive forms, in precedence order: IPv4 with present,
convertible netmask and computable prefix gives `\x20- <addr>/<p> (<mask>)`;
otherwise a computable prefix gives `\x20- <addr>/<p>`; otherwise the bare
`\x20- <addr>` with no slash, prefix, or mask. -/
theorem C3_rendering_trichotomy (a : Sockaddr) (netmask : Option Sockaddr)
    (addr_str : String) (hs : addr_to_string (some a) NI_MAXHOST = some addr_str) :
    (a.sa_family = Family.inet ∧ netmask ≠ none ∧
      (addr_to_string netmask NI_MAXHOST).isSome ∧ 0 ≤ count_prefix_length netmask ∧
      print_address_bullet (some a) netmask =
        [" - " ++ addr_str ++ "/" ++ toString (count_prefix_length netmask) ++ " (" ++
          (addr_to_string netmask NI_MAXHOST).getD "" ++ ")"]) ∨
    (¬(a.sa_family = Family.inet ∧ netmask ≠ none ∧
        (addr_to_string netmask NI_MAXHOST).isSome) ∧
      0 ≤ count_prefix_length netmask ∧
      print_address_bullet (some a) netmask =
        [" - " ++ addr_str ++ "/" ++ toString (count_prefix_length netmask)]) ∨
    (count_prefix_length netmask < 0 ∧
      print_address_bullet (some a) netmask = [" - " ++ addr_str]) := by
  rw [print_address_bullet_conv_some a netmask addr_str hs]
  by_cases h1 : a.sa_family = Family.inet ∧ netmask ≠ none ∧
      (addr_to_string netmask NI_MAXHOST).isSome ∧ 0 ≤ count_prefix_length netmask
  · exact Or.inl ⟨h1.1, h1.2.1, h1.2.2.1, h1.2.2.2, by rw [if_pos h1]⟩
  · by_cases h2 : 0 ≤ count_prefix_length netmask
    · refine Or.inr (Or.inl ⟨fun hc => h1 ⟨hc.1, hc.2.1, hc.2.2, h2⟩, h2,
        by rw [if_neg h1, if_pos h2]⟩)
    · exact Or.inr (Or.inr ⟨by omega, by rw [if_neg h1, if_neg h2]⟩)

/-- Witness for C3 at the spec's example `192.0.2.10` with netmask
`255.255.255.0`: the first (masked) form is produced. -/
theorem C3_rendering_trichotomy_witness :
    print_address_bullet (some (Sockaddr.inet 192 0 2 10))
      (some (Sockaddr.inet 255 255 255 0)) = [" - 192.0.2.10/24 (255.255.255.0)"] := by
  rcases C3_rendering_trichotomy (Sockaddr.inet 192 0 2 10)
      (some (Sockaddr.inet 255 255 255 0)) "192.0.2.10" (by decide) with h | h | h
  · rw [h.2.2.2.2]
    decide
  · exact absurd (by decide) h.1
  · exact absurd h.1 (by decide)

/-- C4: grouping puts an entry in a group only if its family is IPv4 or
IPv6 and its address is non-NULL; group names are recorded without
duplicates, only for names with a qualifying entry; entries keep raw-list
order within a group; on raw entries named `[eth0, lo, eth0]` the group
order is `[eth0, lo]` and `eth0`'s group holds both its entries in original
order. -/
theorem C4_grouping_dedup_order (l : List Ifaddr) :
    (collect_names l).Nodup ∧
    (∀ n, n ∈ collect_names l →
      ∃ ifa, ifa ∈ l ∧ qualifies ifa = true ∧ ifa.ifa_name = n) ∧
    (∀ n, render_group_entries (l.filter qualifies) n = render_group_entries l n) ∧
    collect_names example_entries = ["eth0", "lo"] ∧
    show_all_interfaces example_entries =
      ["eth0:", " - 192.0.2.1/24 (255.255.255.0)", " - 192.0.2.3/24 (255.255.255.0)", "",
       "lo:", " - 127.0.0.1/8 (255.0.0.0)", ""] := by
  refine ⟨collect_names_go_nodup l [] List.nodup_nil, ?_,
    fun n => render_group_entries_filter l n, by decide, by decide⟩
  intro n hmem
  exact (collect_names_go_mem l [] n hmem).resolve_left (List.not_mem_nil n)

/-- Witness for C4: `lo` is among the recorded group names of the example
list, so some qualifying entry carries it. -/
theorem C4_grouping_dedup_order_witness :
    ∃ ifa, ifa ∈ example_entries ∧ qualifies ifa = true ∧ ifa.ifa_name = "lo" :=
  (C4_grouping_dedup_order example_entries).2.1 "lo" (by decide)

/-- C8: every argument vector that is not exactly `-a` alone nor exactly
`-i` with one interface name (wrong count or unrecognized first argument)
makes the program print the usage help to standard output and terminate
with the failure (non-zero) exit status. -/
theorem C8_usage_error (argv : List String) (l : List Ifaddr)
    (h1 : ¬(argv.length = 2 ∧ argv.getD 1 "" = "-a"))
    (h2 : ¬(argv.length = 3 ∧ argv.getD 1 "" = "-i")) :
    (∃ pre, (main_run argv l).1 = pre ++ help_lines) ∧
    (main_run argv l).2 = EXIT_FAILURE ∧ (main_run argv l).2 ≠ EXIT_SUCCESS := by
  unfold main_run
  by_cases hc : argv.length < 2 ∨ argv.length > 3
  · rw [if_pos hc]
    exact ⟨⟨_, rfl⟩, rfl, Nat.one_ne_zero⟩
  · rw [if_neg hc]
    by_cases ha : argv.getD 1 "" = "-a"
    · rw [if_pos ha]
      have hne : argv.length ≠ 2 := fun he => h1 ⟨he, ha⟩
      rw [if_pos hne]
      exact ⟨⟨_, rfl⟩, rfl, Nat.one_ne_zero⟩
    · rw [if_neg ha]
      by_cases hi : argv.getD 1 "" = "-i"
      · rw [if_pos hi]
        have hne : argv.length ≠ 3 := fun he => h2 ⟨he, hi⟩
        rw [if_pos hne]
        exact ⟨⟨_, rfl⟩, rfl, Nat.one_ne_zero⟩
      · rw [if_neg hi]
        exact ⟨⟨_, rfl⟩, rfl, Nat.one_ne_zero⟩

/-- Witness for C8 at the bare invocation `ifshow` (no arguments). -/
theorem C8_usage_error_witness :
    (∃ pre, (main_run ["ifshow"] []).1 = pre ++ help_lines) ∧
    (main_run ["ifshow"] []).2 = EXIT_FAILURE ∧
    (main_run ["ifshow"] []).2 ≠ EXIT_SUCCESS :=
  C8_usage_error ["ifshow"] [] (by decide) (by decide)

/-- C9: all-interfaces mode records and renders at most `MAX_IFS = 256`
distinct interface names: the recorded names are exactly the first 256
names of the uncapped first-seen order, and the output consists of the
groups of exactly those recorded names — every qualifying entry whose name
first appears later is silently omitted. -/
theorem C9_max_ifs_cap (l : List Ifaddr) :
    (collect_names l).length ≤ MAX_IFS ∧
    collect_names l = (first_seen_names l).take MAX_IFS ∧
    show_all_interfaces l = show_all_groups l (collect_names l) := by
  have heq : collect_names l = (first_seen_names l).take MAX_IFS :=
    collect_names_go_eq_take l [] (by exact Nat.zero_le _)
  refine ⟨?_, heq, rfl⟩
  rw [heq, List.length_take]
  exact min_le_left _ _

/-- C10: single-interface mode prints no blank separator after its last
address line — on a name with a qualifying entry the output is the header
followed immediately by the address lines, none of which is blank — while
all-interfaces mode emits one blank line after each group's last address. -/
theorem C10_single_mode_no_blank_line (target : String) (l : List Ifaddr)
    (h : ∃ ifa ∈ l, qualifies ifa = true ∧ ifa.ifa_name = target) :
    show_single_interface target l =
      print_interface_header target ++ render_group_entries l target ∧
    "" ∉ show_single_interface target l ∧
    (∀ (n : String) (rest : List String),
      show_all_groups l (n :: rest) =
        print_interface_header n ++ render_group_entries l n ++ [""] ++
          show_all_groups l rest) := by
  have hany : l.any (fun ifa => qualifies ifa && decide (ifa.ifa_name = target)) = true := by
    rw [List.any_eq_true]
    obtain ⟨ifa, hmem, hq, hn⟩ := h
    exact ⟨ifa, hmem, by rw [Bool.and_eq_true, decide_eq_true_eq]; exact ⟨hq, hn⟩⟩
  have heq : show_single_interface target l =
      print_interface_header target ++ render_group_entries l target := by
    unfold show_single_interface
    rw [hany]
    simp
  refine ⟨heq, ?_, fun n rest => rfl⟩
  rw [heq]
  intro hcontra
  rcases List.mem_append.mp hcontra with hin | hin
  · exact header_line_ne_empty target "" hin rfl
  · exact render_line_ne_empty l target "" hin rfl

/-- Witness for C10 on `eth0` carrying one IPv4 entry. -/
theorem C10_single_mode_no_blank_line_witness :
    show_single_interface "eth0"
        [⟨"eth0", some (Sockaddr.inet 10 0 0 1), some (Sockaddr.inet 255 0 0 0)⟩] =
      print_interface_header "eth0" ++
        render_group_entries
          [⟨"eth0", some (Sockaddr.inet 10 0 0 1), some (Sockaddr.inet 255 0 0 0)⟩] "eth0" :=
  (C10_single_mode_no_blank_line "eth0"
    [⟨"eth0", some (Sockaddr.inet 10 0 0 1), some (Sockaddr.inet 255 0 0 0)⟩] (by decide)).1

end Ifshow
